import Mathlib

/-!
# Verification of the DOM-reduction core and locator-verification step

This file is a shallow embedding of `src/index.js`:

* `simplifyDOM` (lines 15–60): clones `document.body`, removes every element
  whose tag is in `tagsToRemove` together with its subtree
  (`querySelectorAll` + `remove`, lines 20–24), then runs `cleanElement`
  (lines 29–56), which filters attributes down to `allowedAttributes` and
  prunes whitespace-only text nodes and non-element/non-text nodes, and
  finally returns the clone's `innerHTML` (line 59).
* the verification step of `getElementSelector` (lines 112–127): counts the
  matches of the candidate selector on the live page, highlights the first
  match when the count is positive, warns when it is zero, and returns the
  selector; the surrounding `try`/`catch` logs any error and the function
  then returns `undefined`.

DOM trees are modelled as a mutual inductive (`Node` / `NodeList`); machine
details that the claims do not touch (HTML entity escaping in serialization,
void-element syntax) are modelled by plain string concatenation.
-/

/- A DOM node, as `cleanElement` distinguishes them by `nodeType`:
`elem` is an element node (`nodeType === 1`) with a tag name, an attribute
list and an ordered child list; `text` is a text node (`nodeType === 3`)
with its `nodeValue`; `other` is every remaining kind (comment, processing
instruction, ...), carrying its textual payload. -/
mutual
inductive Node where
  | elem (tag : String) (attrs : List (String × String)) (children : NodeList)
  | text (value : String)
  | other (value : String)
inductive NodeList where
  | nil
  | cons (head : Node) (tail : NodeList)
end

/-- Conversion from a Lean list of nodes, for concrete inputs. -/
def NodeList.ofList : List Node → NodeList
  | [] => NodeList.nil
  | n :: rest => NodeList.cons n (NodeList.ofList rest)

/-- `tagsToRemove` (src/index.js line 20): tags whose elements are deleted
with their whole subtree. -/
def tagsToRemove : List String :=
  ["script", "style", "noscript", "iframe", "svg", "link", "meta"]

/-- `allowedAttributes` (src/index.js line 27): the attribute allow-list. -/
def allowedAttributes : List String :=
  ["id", "class", "name", "placeholder", "aria-label", "role", "type",
   "href", "title", "alt"]

/-- JavaScript `String.prototype.trim`, used at src/index.js line 48
(`child.nodeValue.trim()`): drop leading and trailing whitespace. -/
def jsTrim (s : String) : String :=
  String.mk
    (((s.data.dropWhile Char.isWhitespace).reverse.dropWhile
        Char.isWhitespace).reverse)

/-- `document.body.cloneNode(true)` (src/index.js line 17). The DOM API
contract of `cloneNode(true)` is a deep, independent copy — no child array
or attribute map is shared with the source — so on immutable tree values the
clone is the identical value, and every later pipeline stage is applied to
this copy while the live tree is left untouched. -/
def cloneNode (n : Node) : Node := n

/-- One pass of `clone.querySelectorAll(tag)` followed by `el.remove()` on
every match (src/index.js lines 22–23): delete, at every depth of the
forest, each element whose tag equals `tag`, together with its subtree.
(`querySelectorAll` returns a static list; removing a match whose ancestor
was already removed is a no-op, so the net effect is exactly this recursive
deletion.) -/
def removeTagList (tag : String) : NodeList → NodeList
  | NodeList.nil => NodeList.nil
  | NodeList.cons (Node.elem t a c) rest =>
      if t = tag then removeTagList tag rest
      else NodeList.cons (Node.elem t a (removeTagList tag c))
        (removeTagList tag rest)
  | NodeList.cons n rest => NodeList.cons n (removeTagList tag rest)

/-- `tagsToRemove.forEach(tag => ...)` (src/index.js lines 21–24): the
per-tag removal passes run in sequence over the clone's descendants. -/
def elimTags (l : NodeList) : NodeList :=
  tagsToRemove.foldl (fun acc tag => removeTagList tag acc) l

/-- The attribute loop of `cleanElement` (src/index.js lines 31–36):
`removeAttribute` on every attribute whose name is not in
`allowedAttributes` (exact string comparison). -/
def filterAttrs (attrs : List (String × String)) : List (String × String) :=
  attrs.filter (fun attr => allowedAttributes.contains attr.1)

/-- The child loop of `cleanElement` (src/index.js lines 41–55), which
captures `nextSibling` before removal: an element child is kept and cleaned
recursively (attribute filter plus its own child loop), a text child is
removed exactly when its value trims to the empty string and is otherwise
kept verbatim, and every other child is removed. -/
def cleanChildren : NodeList → NodeList
  | NodeList.nil => NodeList.nil
  | NodeList.cons (Node.elem t a c) rest =>
      NodeList.cons (Node.elem t (filterAttrs a) (cleanChildren c))
        (cleanChildren rest)
  | NodeList.cons (Node.text v) rest =>
      if jsTrim v = "" then cleanChildren rest
      else NodeList.cons (Node.text v) (cleanChildren rest)
  | NodeList.cons (Node.other _) rest => cleanChildren rest

/-- `cleanElement` (src/index.js lines 29–56) applied to one node: on an
element node the attribute filter runs and then the child loop; on any other
node the attribute filter is skipped and the node has no children. -/
def cleanElement : Node → Node
  | Node.elem t a c => Node.elem t (filterAttrs a) (cleanChildren c)
  | n => n

/-- The elimination stage as applied to the clone root (src/index.js
lines 20–24): `querySelectorAll` matches only descendants, so the root
itself is never removed, only its child forest is rewritten. -/
def elimRoot : Node → Node
  | Node.elem t a c => Node.elem t a (elimTags c)
  | n => n

/-- The full Eliminator → Attribute Filter → Structural Pruner reduction on
a tree (src/index.js lines 20–58): tag elimination over the descendants,
then `cleanElement` on the root. -/
def reduceTree (n : Node) : Node := cleanElement (elimRoot n)

/-- The reduction restricted to a child forest, which is what the final
`clone.innerHTML` renders. -/
def reduceChildren (l : NodeList) : NodeList := cleanChildren (elimTags l)

/-- Attribute serialization for `innerHTML`: ` name="value"` pairs in
stored order. -/
def serializeAttrs : List (String × String) → String
  | [] => ""
  | (nm, v) :: rest => " " ++ nm ++ "=\"" ++ v ++ "\"" ++ serializeAttrs rest

/- Markup serialization as `innerHTML` performs it (src/index.js line 59):
elements as open tag, attributes, children, close tag; text verbatim;
remaining node kinds in comment syntax. -/
mutual
def serializeNode : Node → String
  | Node.elem t a c =>
      "<" ++ t ++ serializeAttrs a ++ ">" ++ serializeList c ++ "</" ++ t ++ ">"
  | Node.text v => v
  | Node.other v => "<!--" ++ v ++ "-->"
def serializeList : NodeList → String
  | NodeList.nil => ""
  | NodeList.cons n rest => serializeNode n ++ serializeList rest
end

/-- `clone.innerHTML` (src/index.js line 59): the serialization of the
node's children; the node's own tag and attributes are not rendered. -/
def innerHTML : Node → String
  | Node.elem _ _ c => serializeList c
  | _ => ""

/-- `simplifyDOM` (src/index.js lines 15–60): clone the body, eliminate the
excluded tags among its descendants, run `cleanElement` on the clone, and
return the clone's `innerHTML`. -/
def simplifyDOM (body : Node) : String :=
  innerHTML (reduceTree (cloneNode body))

/-- The forest of nodes that `simplifyDOM`'s final `innerHTML` call
serializes: the reduced children of the cloned root. -/
def simplifyForest : Node → NodeList
  | Node.elem _ _ c => reduceChildren c
  | _ => NodeList.nil

/-- A `simplifyDOM` invocation observed together with the live tree it was
given: the returned markup string, paired with the live tree as it stands
after the call. Every mutating stage is applied to `cloneNode live` (src/
index.js line 17), never to `live` itself, so the live component passes
through unchanged. -/
def simplifyDOMRun (live : Node) : String × Node :=
  (innerHTML (reduceTree (cloneNode live)), live)

/-- The truncation bound of src/index.js line 82. -/
def MAX_HTML_LENGTH : Nat := 15000

/-- JavaScript `s.slice(0, n)` (src/index.js line 82): the raw prefix of at
most `n` characters. -/
def jsSlice (s : String) (n : Nat) : String := String.mk (s.data.take n)

/-- `simplifiedHTML.slice(0, 15000)` (src/index.js lines 78–82): serialize
the reduced tree and take a raw character prefix. -/
def serializeAndTruncate (body : Node) : String :=
  jsSlice (simplifyDOM body) MAX_HTML_LENGTH

/-- Outcome of `page.locator(selector)` on the live page, the external
locator engine the verifier consumes (src/index.js lines 112–115).
Modelled from the spec: a locator is an opaque structural query that either
fails outright on malformed syntax or identifies the list of matching
elements of the live tree in document order. -/
inductive QueryOutcome where
  | malformed (message : String)
  | matches (found : List Node)

/-- What the verification step (src/index.js lines 112–119) observably does:
the reported match count, the element the `highlight` side effect was
triggered on (at most one), whether the zero-match warning was emitted, and
the selector string handed back. -/
structure VerifyResult where
  count : Nat
  highlighted : Option Node
  warned : Bool
  selector : String

/-- The verification step (src/index.js lines 112–119): query the live
page; a malformed locator makes the query itself throw, which this step
propagates; otherwise, on a positive count highlight the first match, on a
zero count warn and do nothing. -/
def verifyLocator (q : QueryOutcome) (selector : String) :
    Except String VerifyResult :=
  match q with
  | QueryOutcome.malformed msg => Except.error msg
  | QueryOutcome.matches ms =>
      if ms.length > 0 then
        Except.ok ⟨ms.length, ms.head?, false, selector⟩
      else
        Except.ok ⟨0, none, true, selector⟩

/-- The verification step as seen by the caller of `getElementSelector`
(src/index.js lines 112–127): on success the function returns the selector
(line 121); an error thrown by the verification step is caught by the
`catch` block (lines 123–125), logged, and the function then finishes
normally returning `undefined`, modelled as `Except.ok none`. -/
def getElementSelectorVerify (q : QueryOutcome) (selector : String) :
    Except String (Option String) :=
  match verifyLocator q selector with
  | Except.error _ => Except.ok none
  | Except.ok r => Except.ok (some r.selector)

/-- No element with tag `tag` occurs anywhere in the forest. -/
def noTagF (tag : String) : NodeList → Bool
  | NodeList.nil => true
  | NodeList.cons (Node.elem t _ c) rest =>
      !(t == tag) && noTagF tag c && noTagF tag rest
  | NodeList.cons _ rest => noTagF tag rest

/-- No element whose tag is in the exclusion set occurs anywhere in the
forest. -/
def noExcludedF : NodeList → Bool
  | NodeList.nil => true
  | NodeList.cons (Node.elem t _ c) rest =>
      !(tagsToRemove.contains t) && noExcludedF c && noExcludedF rest
  | NodeList.cons _ rest => noExcludedF rest

/-- Every element of the forest has attribute names within the allow-list. -/
def attrsAllowedF : NodeList → Bool
  | NodeList.nil => true
  | NodeList.cons (Node.elem _ a c) rest =>
      a.all (fun attr => allowedAttributes.contains attr.1) &&
        attrsAllowedF c && attrsAllowedF rest
  | NodeList.cons _ rest => attrsAllowedF rest

/-- No node of the `other` kind and no text node with whitespace-only value
occurs anywhere in the forest. -/
def noStrayF : NodeList → Bool
  | NodeList.nil => true
  | NodeList.cons (Node.elem _ _ c) rest => noStrayF c && noStrayF rest
  | NodeList.cons (Node.text v) rest => !(jsTrim v == "") && noStrayF rest
  | NodeList.cons (Node.other _) _ => false

/-- The text node values of a forest, in document order. -/
def collectTexts : NodeList → List String
  | NodeList.nil => []
  | NodeList.cons (Node.elem _ _ c) rest => collectTexts c ++ collectTexts rest
  | NodeList.cons (Node.text v) rest => v :: collectTexts rest
  | NodeList.cons (Node.other _) rest => collectTexts rest

/-- Structural induction over forests, recursing both into an element's
child forest and into the tail. -/
def NodeList.forestInd {motive : NodeList → Prop}
    (hnil : motive NodeList.nil)
    (htext : ∀ v rest, motive rest → motive (NodeList.cons (Node.text v) rest))
    (hother : ∀ v rest, motive rest → motive (NodeList.cons (Node.other v) rest))
    (helem : ∀ t a c rest, motive c → motive rest →
      motive (NodeList.cons (Node.elem t a c) rest)) :
    ∀ l, motive l
  | NodeList.nil => hnil
  | NodeList.cons (Node.text v) rest =>
      htext v rest (NodeList.forestInd hnil htext hother helem rest)
  | NodeList.cons (Node.other v) rest =>
      hother v rest (NodeList.forestInd hnil htext hother helem rest)
  | NodeList.cons (Node.elem t a c) rest =>
      helem t a c rest (NodeList.forestInd hnil htext hother helem c)
        (NodeList.forestInd hnil htext hother helem rest)

theorem noTagF_removeTagList_self (tag : String) (l : NodeList) :
    noTagF tag (removeTagList tag l) = true := by
  induction l using NodeList.forestInd with
  | hnil => simp [removeTagList, noTagF]
  | htext v rest ih => simpa [removeTagList, noTagF] using ih
  | hother v rest ih => simpa [removeTagList, noTagF] using ih
  | helem t a c rest ihc ihr =>
      by_cases h : t = tag
      · simpa [removeTagList, h] using ihr
      · simp [removeTagList, noTagF, h, ihc, ihr]

theorem noTagF_removeTagList (tag tag' : String) (l : NodeList)
    (h : noTagF tag l = true) : noTagF tag (removeTagList tag' l) = true := by
  induction l using NodeList.forestInd with
  | hnil => simpa [removeTagList] using h
  | htext v rest ih =>
      simp only [noTagF] at h
      simpa [removeTagList, noTagF] using ih h
  | hother v rest ih =>
      simp only [noTagF] at h
      simpa [removeTagList, noTagF] using ih h
  | helem t a c rest ihc ihr =>
      simp only [noTagF, Bool.and_eq_true] at h
      obtain ⟨⟨hne, hc⟩, hr⟩ := h
      by_cases hq : t = tag'
      · simpa [removeTagList, hq] using ihr hr
      · simp [removeTagList, noTagF, hq, hne, ihc hc, ihr hr]

theorem removeTagList_eq_self (tag : String) (l : NodeList)
    (h : noTagF tag l = true) : removeTagList tag l = l := by
  induction l using NodeList.forestInd with
  | hnil => simp [removeTagList]
  | htext v rest ih =>
      simp only [noTagF] at h
      simp [removeTagList, ih h]
  | hother v rest ih =>
      simp only [noTagF] at h
      simp [removeTagList, ih h]
  | helem t a c rest ihc ihr =>
      simp only [noTagF, Bool.and_eq_true] at h
      obtain ⟨⟨hne, hc⟩, hr⟩ := h
      have hne' : ¬ t = tag := by
        simpa using hne
      simp [removeTagList, hne', ihc hc, ihr hr]

theorem noTagF_cleanChildren (tag : String) (l : NodeList)
    (h : noTagF tag l = true) : noTagF tag (cleanChildren l) = true := by
  induction l using NodeList.forestInd with
  | hnil => simpa [cleanChildren] using h
  | htext v rest ih =>
      simp only [noTagF] at h
      by_cases hv : jsTrim v = "" <;> simp [cleanChildren, noTagF, hv, ih h]
  | hother v rest ih =>
      simp only [noTagF] at h
      simpa [cleanChildren, noTagF] using ih h
  | helem t a c rest ihc ihr =>
      simp only [noTagF, Bool.and_eq_true] at h
      obtain ⟨⟨hne, hc⟩, hr⟩ := h
      simp [cleanChildren, noTagF, hne, ihc hc, ihr hr]

theorem noTagF_foldl (tags : List String) (tag : String) (l : NodeList)
    (h : noTagF tag l = true) :
    noTagF tag (tags.foldl (fun acc g => removeTagList g acc) l) = true := by
  induction tags generalizing l with
  | nil => simpa using h
  | cons g gs ih =>
      simp only [List.foldl_cons]
      exact ih (removeTagList g l) (noTagF_removeTagList tag g l h)

theorem noTagF_elimTags (tags : List String) (tag : String) (l : NodeList)
    (hmem : tag ∈ tags) :
    noTagF tag (tags.foldl (fun acc g => removeTagList g acc) l) = true := by
  induction tags generalizing l with
  | nil => cases hmem
  | cons g gs ih =>
      simp only [List.foldl_cons]
      rcases List.mem_cons.mp hmem with hq | hq
      · subst hq
        exact noTagF_foldl gs tag (removeTagList tag l)
          (noTagF_removeTagList_self tag l)
      · exact ih (removeTagList g l) hq

theorem foldl_removeTagList_eq_self (tags : List String) (l : NodeList)
    (h : ∀ tag ∈ tags, noTagF tag l = true) :
    tags.foldl (fun acc g => removeTagList g acc) l = l := by
  induction tags with
  | nil => rfl
  | cons g gs ih =>
      simp only [List.foldl_cons]
      rw [removeTagList_eq_self g l (h g (List.mem_cons_self g gs))]
      exact ih fun tag hm => h tag (List.mem_cons_of_mem g hm)

theorem filterAttrs_idem (a : List (String × String)) :
    filterAttrs (filterAttrs a) = filterAttrs a := by
  induction a with
  | nil => rfl
  | cons p rest ih =>
      by_cases h : allowedAttributes.contains p.1 = true
      · simp [filterAttrs, h]
      · simp [filterAttrs, h]

theorem cleanChildren_idem (l : NodeList) :
    cleanChildren (cleanChildren l) = cleanChildren l := by
  induction l using NodeList.forestInd with
  | hnil => rfl
  | htext v rest ih =>
      by_cases hv : jsTrim v = "" <;>
        simp [cleanChildren, hv, ih]
  | hother v rest ih => simpa [cleanChildren] using ih
  | helem t a c rest ihc ihr =>
      simp [cleanChildren, filterAttrs_idem, ihc, ihr]

theorem noTagF_cleanChildren_elimTags (tag : String) (l : NodeList)
    (hmem : tag ∈ tagsToRemove) :
    noTagF tag (cleanChildren (elimTags l)) = true :=
  noTagF_cleanChildren tag (elimTags l)
    (noTagF_elimTags tagsToRemove tag l hmem)

theorem elimTags_reduceChildren (l : NodeList) :
    elimTags (reduceChildren l) = reduceChildren l :=
  foldl_removeTagList_eq_self tagsToRemove (cleanChildren (elimTags l))
    (fun tag hm => noTagF_cleanChildren_elimTags tag l hm)

theorem reduceChildren_idem (l : NodeList) :
    reduceChildren (reduceChildren l) = reduceChildren l := by
  show cleanChildren (elimTags (reduceChildren l)) = reduceChildren l
  rw [elimTags_reduceChildren]
  exact cleanChildren_idem (elimTags l)

theorem filterAttrs_allowed (a : List (String × String)) :
    (filterAttrs a).all (fun attr => allowedAttributes.contains attr.1) = true := by
  simp only [filterAttrs, List.all_eq_true]
  intro attr hmem
  exact (List.mem_filter.mp hmem).2

theorem attrsAllowedF_cleanChildren (l : NodeList) :
    attrsAllowedF (cleanChildren l) = true := by
  induction l using NodeList.forestInd with
  | hnil => rfl
  | htext v rest ih =>
      by_cases hv : jsTrim v = "" <;> simp [cleanChildren, attrsAllowedF, hv, ih]
  | hother v rest ih => simpa [cleanChildren] using ih
  | helem t a c rest ihc ihr =>
      simp only [cleanChildren, attrsAllowedF, Bool.and_eq_true]
      refine ⟨⟨filterAttrs_allowed a, ihc⟩, ihr⟩

theorem noStrayF_cleanChildren (l : NodeList) :
    noStrayF (cleanChildren l) = true := by
  induction l using NodeList.forestInd with
  | hnil => rfl
  | htext v rest ih =>
      by_cases hv : jsTrim v = "" <;> simp [cleanChildren, noStrayF, hv, ih]
  | hother v rest ih => simpa [cleanChildren] using ih
  | helem t a c rest ihc ihr =>
      simp [cleanChildren, noStrayF, ihc, ihr]

theorem collectTexts_cleanChildren (l : NodeList) :
    collectTexts (cleanChildren l) =
      (collectTexts l).filter (fun v => !(jsTrim v == "")) := by
  induction l using NodeList.forestInd with
  | hnil => rfl
  | htext v rest ih =>
      by_cases hv : jsTrim v = "" <;>
        simp [cleanChildren, collectTexts, hv, ih, List.filter_cons]
  | hother v rest ih => simpa [cleanChildren, collectTexts] using ih
  | helem t a c rest ihc ihr =>
      simp [cleanChildren, collectTexts, ihc, ihr, List.filter_append]

theorem noExcludedF_of_noTag (l : NodeList)
    (h : ∀ tag ∈ tagsToRemove, noTagF tag l = true) :
    noExcludedF l = true := by
  induction l using NodeList.forestInd with
  | hnil => rfl
  | htext v rest ih =>
      simp only [noTagF] at h
      simpa [noExcludedF] using ih h
  | hother v rest ih =>
      simp only [noTagF] at h
      simpa [noExcludedF] using ih h
  | helem t a c rest ihc ihr =>
      have hsplit : ∀ tag ∈ tagsToRemove,
          (t == tag) = false ∧ noTagF tag c = true ∧ noTagF tag rest = true := by
        intro tag hm
        have := h tag hm
        simp only [noTagF, Bool.and_eq_true, Bool.not_eq_true'] at this
        exact ⟨this.1.1, this.1.2, this.2⟩
      have hnotmem : ¬ t ∈ tagsToRemove := by
        intro hmem
        have := (hsplit t hmem).1
        simp at this
      have hc' : ∀ tag ∈ tagsToRemove, noTagF tag c = true :=
        fun tag hm => (hsplit tag hm).2.1
      have hr' : ∀ tag ∈ tagsToRemove, noTagF tag rest = true :=
        fun tag hm => (hsplit tag hm).2.2
      simp [noExcludedF, hnotmem, ihc hc', ihr hr']

theorem simplifyDOM_eq_serializeForest (body : Node) :
    simplifyDOM body = serializeList (simplifyForest body) := by
  cases body <;> rfl

/-- C1: for every input tree, after the full reduction (subtree elimination,
attribute filtering, structural pruning) the output forest rendered by
`simplifyDOM` contains no element whose tag is in the exclusion set
`tagsToRemove`, at any depth — elements nested inside an excluded element's
original subtree are deleted together with that subtree. -/
theorem exclusion_completeness (body : Node) :
    noExcludedF (simplifyForest body) = true := by
  cases body with
  | elem t a c =>
      exact noExcludedF_of_noTag (reduceChildren c)
        (fun tag hm => noTagF_cleanChildren_elimTags tag c hm)
  | text v => rfl
  | other v => rfl

/-- C2: for every input tree, every element surviving the reduction has an
attribute-name set that is a subset of the allow-list `allowedAttributes`. -/
theorem attribute_closure (body : Node) :
    attrsAllowedF (simplifyForest body) = true := by
  cases body with
  | elem t a c => exact attrsAllowedF_cleanChildren (elimTags c)
  | text v => rfl
  | other v => rfl

/-- C3: for every input tree, the reduction's output contains no node of the
`other` kind and no text node whose trimmed value is empty; and the pruning
pass keeps exactly the text nodes with non-empty trimmed value, verbatim and
in document order. -/
theorem no_stray_nodes :
    (∀ body : Node, noStrayF (simplifyForest body) = true) ∧
    (∀ l : NodeList, collectTexts (cleanChildren l) =
      (collectTexts l).filter (fun v => !(jsTrim v == ""))) := by
  constructor
  · intro body
    cases body with
    | elem t a c => exact noStrayF_cleanChildren (elimTags c)
    | text v => rfl
    | other v => rfl
  · exact collectTexts_cleanChildren

/-- C4: the reduction pipeline is idempotent — applying the full
Eliminator → Attribute Filter → Structural Pruner reduction to its own
output yields the same result. -/
theorem reduce_idempotent (n : Node) :
    reduceTree (reduceTree n) = reduceTree n := by
  cases n with
  | elem t a c =>
      have helim := elimTags_reduceChildren c
      simp only [reduceChildren] at helim
      simp only [reduceTree, elimRoot, cleanElement, Node.elem.injEq, true_and]
      refine ⟨filterAttrs_idem a, ?_⟩
      rw [helim]
      exact cleanChildren_idem (elimTags c)
  | text v => rfl
  | other v => rfl

/-- C5: a reduction call never mutates the original live tree — every
transformation is applied to the deep, independent clone produced by
`cloneNode`, so the live component of a `simplifyDOM` run is the very tree
that was passed in, and its serialization is unchanged by the call. -/
theorem non_mutation (live : Node) :
    (simplifyDOMRun live).2 = live ∧
    serializeNode (simplifyDOMRun live).2 = serializeNode live :=
  ⟨rfl, rfl⟩

/-- C6: the serialize-and-truncate step produces a string of length at most
`MAX_HTML_LENGTH` (15000), and that string is exactly the first 15000
characters of the untruncated serialization — a raw character prefix. -/
theorem truncation_bound (body : Node) :
    (serializeAndTruncate body).length ≤ MAX_HTML_LENGTH ∧
    (serializeAndTruncate body).data =
      (simplifyDOM body).data.take MAX_HTML_LENGTH := by
  refine ⟨?_, rfl⟩
  show ((simplifyDOM body).data.take MAX_HTML_LENGTH).length ≤ MAX_HTML_LENGTH
  rw [List.length_take]
  exact Nat.min_le_left _ _

/-- C7 counterexample: with a malformed locator the pipeline function does
not propagate an error to its caller — the `catch` block absorbs the query
failure and the call finishes normally, returning `undefined`. -/
theorem malformed_locator_not_propagated :
    getElementSelectorVerify
      (QueryOutcome.malformed "SyntaxError: unexpected token") "div[[" =
      Except.ok none := rfl

/-- C7 (amended): a malformed locator is fatal to the verification step
itself — the query yields an error, no highlight happens and no locator is
produced, with no repair attempted — but the surrounding `try`/`catch` of
`getElementSelector` catches that error, logs it, and the pipeline function
returns `undefined` to its caller instead of propagating the error. -/
theorem malformed_locator_fatal_but_caught (msg selector : String) :
    verifyLocator (QueryOutcome.malformed msg) selector = Except.error msg ∧
    getElementSelectorVerify (QueryOutcome.malformed msg) selector =
      Except.ok none :=
  ⟨rfl, rfl⟩

/-- C8: a well-formed locator matching zero elements makes the verifier
report count 0, emit the warning, perform no highlight call, and hand the
locator back unchanged; the pipeline returns that locator normally, so zero
matches is not an error. -/
theorem verifier_zero_match (selector : String) :
    verifyLocator (QueryOutcome.matches []) selector =
      Except.ok ⟨0, none, true, selector⟩ ∧
    getElementSelectorVerify (QueryOutcome.matches []) selector =
      Except.ok (some selector) :=
  ⟨rfl, rfl⟩

/-- C9: a well-formed locator matching at least one element makes the
verifier report the true match count, trigger the highlight side effect on
exactly the first match in document order and on no other element, and
return the locator unchanged. -/
theorem verifier_positive_match (selector : String) (m : Node)
    (rest : List Node) :
    verifyLocator (QueryOutcome.matches (m :: rest)) selector =
      Except.ok ⟨(m :: rest).length, some m, false, selector⟩ ∧
    getElementSelectorVerify (QueryOutcome.matches (m :: rest)) selector =
      Except.ok (some selector) := by
  constructor
  · simp [verifyLocator]
  · simp [getElementSelectorVerify, verifyLocator]

/-- C10: the reduction's serialized output is the inner markup of the cloned
root only — the output string does not depend on the root element's own tag
or attributes, and when every child is removed by the reduction the output
is the empty string. -/
theorem output_is_innerHTML_only (t t' : String)
    (a a' : List (String × String)) (c : NodeList) :
    simplifyDOM (Node.elem t a c) = simplifyDOM (Node.elem t' a' c) ∧
    (reduceChildren c = NodeList.nil → simplifyDOM (Node.elem t a c) = "") := by
  refine ⟨rfl, ?_⟩
  intro h
  show serializeList (reduceChildren c) = ""
  rw [h]
  rfl

/-- Witness for C10: on a body whose only child is a comment node, the
reduction removes everything and `simplifyDOM` returns the empty string. -/
theorem output_is_innerHTML_only_witness :
    simplifyDOM (Node.elem "body" [("style", "color:red")]
      (NodeList.cons (Node.other "comment") NodeList.nil)) = "" :=
  (output_is_innerHTML_only "body" "div" [("style", "color:red")] []
    (NodeList.cons (Node.other "comment") NodeList.nil)).2 rfl
